import Mathlib

/-!
Verification of the in-memory customer datastore of `customerio-backend`
(`src/datastore/datastore.go`, package `datastore`).

The embedding below translates the Go code directly:

* Go maps (`map[int]int`, `map[string]string`, `map[string]int`,
  `map[string]bool`) become association lists with overwrite-on-insert
  semantics (`ainsert` first erases the key, so lookups behave exactly like
  Go map reads); Go map deletion is `aerase`.
* `*serve.Customer` values stored in the slice become plain `Customer`
  values; in-place mutation through the pointer becomes `List.set` at the
  customer's position.
* Fallible Go functions returning `(T, error)` become `Except String T`;
  a Go runtime panic (slice index out of range) is modelled as the
  distinguished error string "panic: index out of range".
* `strconv.Atoi` is modelled by `atoi`; `time.Now().Unix()` is an
  explicit `now : Int` argument of the operations that read the wall clock.
* The `ds == nil` guards of the Go code are unrepresentable here (the
  receiver is a value), so they are omitted.
-/

/-- Lookup in an association list, i.e. a read `m[k]` of a Go map
(`none` models "key absent"). -/
def alookup {α β : Type} [DecidableEq α] (k : α) : List (α × β) → Option β
  | [] => none
  | (k', v) :: rest => if k' = k then some v else alookup k rest

/-- Go map deletion `delete(m, k)`. -/
def aerase {α β : Type} [DecidableEq α] (k : α) (m : List (α × β)) : List (α × β) :=
  m.filter (fun pr => pr.1 ≠ k)

/-- Go map write `m[k] = v` (overwrites any previous binding of `k`). -/
def ainsert {α β : Type} [DecidableEq α] (k : α) (v : β) (m : List (α × β)) : List (α × β) :=
  (k, v) :: aerase k m

/-- The Go loop `for k, v := range data { attrs[k] = v }` that writes every
pair of `data` into the map `attrs` (datastore.go:113-115, 155-157, 220-222). -/
def applyData (attrs data : List (String × String)) : List (String × String) :=
  data.foldl (fun acc pr => ainsert pr.1 pr.2 acc) attrs

/-- Numeric value of a decimal digit character, `none` otherwise. -/
def digitVal (c : Char) : Option Nat :=
  if '0' ≤ c ∧ c ≤ '9' then some (c.toNat - '0'.toNat) else none

/-- Accumulate the decimal value of a digit string; `none` on any
non-digit. -/
def digitsVal (acc : Nat) : List Char → Option Nat
  | [] => some acc
  | c :: rest =>
    match digitVal c with
    | none => none
    | some d => digitsVal (acc * 10 + d) rest

/-- Models `strconv.Atoi`: an optional sign followed by one or more
decimal digits; anything else fails.  (Go additionally fails on 64-bit
overflow, which no claim here exercises.) -/
def atoi (s : String) : Option Int :=
  match s.data with
  | [] => none
  | '-' :: rest =>
    match rest with
    | [] => none
    | _ => (digitsVal 0 rest).map (fun n => -(n : Int))
  | '+' :: rest =>
    match rest with
    | [] => none
    | _ => (digitsVal 0 rest).map (fun n => (n : Int))
  | l => (digitsVal 0 l).map (fun n => (n : Int))

/-- `serve.Customer`: the profile entity stored by the datastore. -/
structure Customer where
  ID : Int
  Attributes : List (String × String)
  Events : List (String × Nat)
  LastUpdated : Int
deriving DecidableEq, Repr, Inhabited

/-- `stream.Record`: one ingested fact.  The Go field `Type` is named
`Kind` here because `Type` is reserved in Lean. -/
structure Record where
  ID : String
  UserID : String
  Kind : String
  Name : String
  Timestamp : Int
  Data : List (String × String)
deriving DecidableEq, Repr, Inhabited

/-- The `Datastore` struct (datastore.go:13-21): dense customer storage,
the id-to-position index `customerLinks`, and the processed-record set. -/
structure Datastore where
  customers : List Customer
  customerLinks : List (Int × Nat)
  processedEventsMap : List (String × Bool)
deriving DecidableEq, Repr, Inhabited

/-- The store New starts from (datastore.go:25-29): all three fields empty. -/
def emptyStore : Datastore := ⟨[], [], []⟩

/-- The customer stored at position `p` (with a default out of range);
used to state invariants decidably. -/
def cAt (cs : List Customer) (p : Nat) : Customer :=
  cs[p]?.getD default

/-- `isUserRegistered` (datastore.go:59-75): parse the user id, then check
membership in `customerLinks`. -/
def isUserRegistered (ds : Datastore) (customerId : String) : Except String Bool :=
  match atoi customerId with
  | none => .error "invalid user id"
  | some userId => .ok (alookup userId ds.customerLinks).isSome

/-- `registerCustomerFromRecord` (datastore.go:77-99): create a customer
with empty attributes/events and `LastUpdated` from the record's timestamp,
append it, and index it at the last position. -/
def registerCustomerFromRecord (ds : Datastore) (record : Record) :
    Except String (Customer × Datastore) :=
  match atoi record.UserID with
  | none => .error "invalid user id"
  | some userId =>
    let newCustomer : Customer := ⟨userId, [], [], record.Timestamp⟩
    .ok (newCustomer,
      { ds with customers := ds.customers ++ [newCustomer],
                customerLinks := ainsert userId ds.customers.length ds.customerLinks })

/-- `registerCustomer` (datastore.go:101-121): create a customer with the
supplied attributes copied in and `LastUpdated` set to the wall clock
(`now`), append it, and index it at the last position. -/
def registerCustomer (ds : Datastore) (id : Int) (attributes : List (String × String))
    (now : Int) : Customer × Datastore :=
  let newCustomer : Customer := ⟨id, applyData [] attributes, [], now⟩
  (newCustomer,
    { ds with customers := ds.customers ++ [newCustomer],
              customerLinks := ainsert id ds.customers.length ds.customerLinks })

/-- The watermark update at datastore.go:161-164: raise `LastUpdated` to
`ts` only if strictly greater. -/
def raiseLU (c : Customer) (ts : Int) : Customer :=
  if c.LastUpdated < ts then { c with LastUpdated := ts } else c

/-- The event-count update at datastore.go:144-148: initialize to 1 when
absent, otherwise increment. -/
def bumpEvent (evs : List (String × Nat)) (name : String) : List (String × Nat) :=
  match alookup name evs with
  | none => ainsert name 1 evs
  | some n => ainsert name (n + 1) evs

/-- `processRecord` (datastore.go:123-167).  Note that the Go code reads
`ds.customers[ds.customerLinks[customerId]]` before the switch: a missing
link defaults to position 0 (Go zero value) and an out-of-range position
panics; both are reproduced.  A duplicate event returns early, skipping
the watermark update. -/
def processRecord (ds : Datastore) (record : Record) : Except String Datastore :=
  match atoi record.UserID with
  | none => .error "invalid user id"
  | some customerId =>
    let pos := (alookup customerId ds.customerLinks).getD 0
    match ds.customers[pos]? with
    | none => .error "panic: index out of range"
    | some customer =>
      if record.Kind = "event" then
        if (alookup record.ID ds.processedEventsMap).isSome then
          .ok ds
        else
          let customer1 := raiseLU { customer with Events := bumpEvent customer.Events record.Name }
            record.Timestamp
          .ok { ds with
                  customers := ds.customers.set pos customer1,
                  processedEventsMap := ainsert record.ID true ds.processedEventsMap }
      else if record.Kind = "attributes" then
        let customer1 :=
          if customer.LastUpdated ≤ record.Timestamp then
            { customer with Attributes := applyData customer.Attributes record.Data }
          else customer
        .ok { ds with customers := ds.customers.set pos (raiseLU customer1 record.Timestamp) }
      else
        .ok { ds with customers := ds.customers.set pos (raiseLU customer record.Timestamp) }

/-- One iteration of the ingestion loop in `New` (datastore.go:31-54): an
unparseable user id is logged and skipped; a registration error is logged
but processing continues; a `processRecord` error aborts `New`. -/
def ingestStep (ds : Datastore) (record : Record) : Except String Datastore :=
  match isUserRegistered ds record.UserID with
  | .error _ => .ok ds
  | .ok b =>
    let ds1 := if b then ds
      else match registerCustomerFromRecord ds record with
        | .ok pr => pr.2
        | .error _ => ds
    processRecord ds1 record

/-- The record loop of `New` over the drained channel contents. -/
def NewLoop : Datastore → List Record → Except String Datastore
  | ds, [] => .ok ds
  | ds, record :: rest =>
    match ingestStep ds record with
    | .error e => .error e
    | .ok ds' => NewLoop ds' rest

/-- `New` (datastore.go:24-57) applied to the full record sequence drained
from the input channel. -/
def New (records : List Record) : Except String Datastore :=
  NewLoop emptyStore records

/-- The two-cursor index-repair loop of `fixLinks` (datastore.go:180-182):
`links[cs[i].ID], links[cs[j].ID] = i, j`, cursors moving inward while
`i < j`.  Go's tuple assignment writes the `i` entry first, so on an id
clash the `j` write wins; `ainsert cj.ID j (ainsert ci.ID i links)`
reproduces that. -/
def fixLinksAux (cs : List Customer) (fuel i j : Nat) (links : List (Int × Nat)) :
    List (Int × Nat) :=
  match fuel with
  | 0 => links
  | fuel' + 1 =>
    if i < j then
      match cs[i]?, cs[j]? with
      | some ci, some cj =>
        fixLinksAux cs fuel' (i + 1) (j - 1) (ainsert cj.ID j (ainsert ci.ID i links))
      | _, _ => links
    else links

/-- `fixLinks` (datastore.go:169-185): repair the index by the two-cursor
walk from both ends of storage.  The loop terminates because `j - i`
shrinks by 2 per iteration; the structural `fuel` argument (the storage
length, an upper bound on the iteration count since every iteration needs
`i < j < length`) makes that termination explicit and keeps the function
computable by the kernel. -/
def fixLinks (ds : Datastore) : Datastore :=
  { ds with
      customerLinks :=
        fixLinksAux ds.customers ds.customers.length 0 (ds.customers.length - 1)
          ds.customerLinks }

/-- `Datastore.Get` (datastore.go:188-196): index lookup then a direct,
unchecked slice access. -/
def Datastore.Get (ds : Datastore) (id : Int) : Except String Customer :=
  match alookup id ds.customerLinks with
  | none => .error "customer not found"
  | some pos =>
    match ds.customers[pos]? with
    | none => .error "panic: index out of range"
    | some customer => .ok customer

/-- `Datastore.Create` (datastore.go:204-210). -/
def Datastore.Create (ds : Datastore) (id : Int) (attributes : List (String × String))
    (now : Int) : Except String (Customer × Datastore) :=
  if (alookup id ds.customerLinks).isSome then .error "customer already exists"
  else .ok (registerCustomer ds id attributes now)

/-- `Datastore.Update` (datastore.go:213-227): merge the supplied keys into
the customer's attributes and set `LastUpdated` to the wall clock. -/
def Datastore.Update (ds : Datastore) (id : Int) (attributes : List (String × String))
    (now : Int) : Except String (Customer × Datastore) :=
  match alookup id ds.customerLinks with
  | none => .error "customer does not exist"
  | some pos =>
    match ds.customers[pos]? with
    | none => .error "panic: index out of range"
    | some customer =>
      let customer1 := { customer with
        Attributes := applyData customer.Attributes attributes, LastUpdated := now }
      .ok (customer1, { ds with customers := ds.customers.set pos customer1 })

/-- `Datastore.Delete` (datastore.go:230-245): remove the index entry,
swap the last customer into the vacated slot, truncate, and repair links.
The two slice accesses `customers[pos]` and `customers[len-1]` panic when
out of range. -/
def Datastore.Delete (ds : Datastore) (id : Int) : Except String Datastore :=
  match alookup id ds.customerLinks with
  | none => .error "customer not found"
  | some pos =>
    let links1 := aerase id ds.customerLinks
    match ds.customers[ds.customers.length - 1]? with
    | none => .error "panic: index out of range"
    | some last =>
      if pos < ds.customers.length then
        .ok (fixLinks
          { customers := (ds.customers.set pos last).take (ds.customers.length - 1),
            customerLinks := links1,
            processedEventsMap := ds.processedEventsMap })
      else .error "panic: index out of range"

/-- `Datastore.TotalCustomers` (datastore.go:248-250). -/
def Datastore.TotalCustomers (ds : Datastore) : Except String Nat :=
  .ok ds.customers.length

/-- The customer-slice type, named so that `Datastore.List` below can state
its result type without the name `List` resolving to itself. -/
abbrev CustomerSeq := List Customer

/-- `Datastore.List` (datastore.go:199-201): returns the whole slice; the
`page` and `count` parameters are ignored.  (Declared after the other
methods so that the bare name `List` keeps denoting the core list type in
their signatures.) -/
def Datastore.List (ds : Datastore) (page count : Int) : Except String CustomerSeq :=
  .ok ds.customers

/-- A CRUD operation of the kind quantified over by invariant I1; the wall
clock reading of `create` is an explicit argument. -/
inductive Op where
  | create (id : Int) (attributes : List (String × String)) (now : Int)
  | delete (id : Int)
deriving DecidableEq, Repr

/-- Apply an operation; a failed operation leaves the state unchanged. -/
def applyOp (ds : Datastore) : Op → Datastore
  | .create id attrs now =>
    match ds.Create id attrs now with
    | .ok pr => pr.2
    | .error _ => ds
  | .delete id =>
    match ds.Delete id with
    | .ok ds' => ds'
    | .error _ => ds

/-- Apply a sequence of operations in order. -/
def applySeq (ds : Datastore) (ops : List Op) : Datastore :=
  ops.foldl applyOp ds

/-- Invariant I1 of the spec (together with the uniqueness it induces):
the index is a total, exact inverse of the storage positions. -/
def Valid (ds : Datastore) : Prop :=
  (∀ p, p < ds.customers.length →
      alookup (cAt ds.customers p).ID ds.customerLinks = some p) ∧
  (∀ pr ∈ ds.customerLinks, pr.2 < ds.customers.length ∧ (cAt ds.customers pr.2).ID = pr.1)

instance {ε α : Type} [DecidableEq ε] [DecidableEq α] : DecidableEq (Except ε α) := fun a b =>
  match a, b with
  | .error e, .error f => decidable_of_iff (e = f) (by simp)
  | .error _, .ok _ => isFalse (by simp)
  | .ok _, .error _ => isFalse (by simp)
  | .ok a, .ok b => decidable_of_iff (a = b) (by simp)

instance (ds : Datastore) : Decidable (Valid ds) :=
  decidable_of_iff
    ((∀ p ∈ List.range ds.customers.length,
        alookup (cAt ds.customers p).ID ds.customerLinks = some p) ∧
     (∀ pr ∈ ds.customerLinks, pr.2 < ds.customers.length ∧ (cAt ds.customers pr.2).ID = pr.1))
    (by
      constructor
      · rintro ⟨h1, h2⟩
        exact ⟨fun p hp => h1 p (List.mem_range.mpr hp), h2⟩
      · rintro ⟨h1, h2⟩
        exact ⟨fun p hp => h1 p (List.mem_range.mp hp), h2⟩)

example : Valid emptyStore := by decide

example :
    New [⟨"e1", "1", "event", "open", 10, []⟩,
         ⟨"a1", "1", "attributes", "", 5, [("color", "red")]⟩,
         ⟨"a2", "1", "attributes", "", 20, [("color", "blue")]⟩] =
      .ok ⟨[⟨1, [("color", "blue")], [("open", 1)], 20⟩], [(1, 0)], [("e1", true)]⟩ := by
  decide

example :
    ¬ Valid (applySeq emptyStore
      [.create 1 [] 0, .create 2 [] 0, .create 3 [] 0, .create 4 [] 0, .delete 2]) := by
  decide

/-! ### Association-list (Go map) lemmas -/

theorem alookup_ainsert_self {α β : Type} [DecidableEq α] (k : α) (v : β) (m : List (α × β)) :
    alookup k (ainsert k v m) = some v := by
  simp [ainsert, alookup]

theorem alookup_aerase_ne {α β : Type} [DecidableEq α] {k k' : α} (h : k' ≠ k)
    (m : List (α × β)) : alookup k' (aerase k m) = alookup k' m := by
  induction m with
  | nil => rfl
  | cons pr rest ih =>
    obtain ⟨a, b⟩ := pr
    by_cases hak : a = k
    · subst hak
      have : alookup k' (aerase a ((a, b) :: rest)) = alookup k' (aerase a rest) := by
        simp [aerase, List.filter]
      rw [this, ih]
      have hne : ¬(a = k') := fun hh => h hh.symm
      simp [alookup, hne]
    · have : aerase k ((a, b) :: rest) = (a, b) :: aerase k rest := by
        simp [aerase, List.filter, hak]
      rw [this]
      by_cases hk' : a = k'
      · simp [alookup, hk']
      · simp [alookup, hk', ih]

theorem alookup_ainsert_ne {α β : Type} [DecidableEq α] {k k' : α} (h : k' ≠ k) (v : β)
    (m : List (α × β)) : alookup k' (ainsert k v m) = alookup k' m := by
  have hne : ¬(k = k') := fun hh => h hh.symm
  have : alookup k' (ainsert k v m) = alookup k' (aerase k m) := by
    simp [ainsert, alookup, hne]
  rw [this, alookup_aerase_ne h]

theorem mem_of_alookup {α β : Type} [DecidableEq α] {k : α} {v : β} {m : List (α × β)}
    (h : alookup k m = some v) : (k, v) ∈ m := by
  induction m with
  | nil => simp [alookup] at h
  | cons pr rest ih =>
    obtain ⟨a, b⟩ := pr
    by_cases hak : a = k
    · subst hak
      simp [alookup] at h
      simp [h]
    · simp [alookup, hak] at h
      exact List.mem_cons_of_mem _ (ih h)

theorem mem_aerase {α β : Type} [DecidableEq α] {k : α} {pr : α × β} {m : List (α × β)}
    (h : pr ∈ aerase k m) : pr ∈ m ∧ pr.1 ≠ k := by
  unfold aerase at h
  have := List.mem_filter.mp h
  simpa using this

theorem mem_ainsert {α β : Type} [DecidableEq α] {k : α} {v : β} {pr : α × β}
    {m : List (α × β)} (h : pr ∈ ainsert k v m) : pr = (k, v) ∨ (pr ∈ m ∧ pr.1 ≠ k) := by
  rcases List.mem_cons.mp h with h' | h'
  · exact Or.inl h'
  · exact Or.inr (mem_aerase h')

theorem alookup_eq_none_of_not_mem_keys {α β : Type} [DecidableEq α] {k : α}
    {m : List (α × β)} (h : k ∉ m.map Prod.fst) : alookup k m = none := by
  induction m with
  | nil => rfl
  | cons pr rest ih =>
    obtain ⟨a, b⟩ := pr
    simp only [List.map_cons, List.mem_cons] at h
    push_neg at h
    have hne : ¬(a = k) := fun hh => h.1 hh.symm
    simp [alookup, hne, ih h.2]

theorem alookup_applyData_none {k : String} {data : List (String × String)}
    (h : alookup k data = none) (attrs : List (String × String)) :
    alookup k (applyData attrs data) = alookup k attrs := by
  induction data generalizing attrs with
  | nil => rfl
  | cons pr rest ih =>
    obtain ⟨a, b⟩ := pr
    by_cases hak : a = k
    · simp [alookup, hak] at h
    · simp only [alookup, hak, if_false] at h
      show alookup k (applyData (ainsert a b attrs) rest) = alookup k attrs
      rw [ih h, alookup_ainsert_ne (fun hh => hak hh.symm)]

theorem alookup_applyData_some {k v : String} {data : List (String × String)}
    (hnd : (data.map Prod.fst).Nodup) (h : alookup k data = some v)
    (attrs : List (String × String)) : alookup k (applyData attrs data) = some v := by
  induction data generalizing attrs with
  | nil => simp [alookup] at h
  | cons pr rest ih =>
    obtain ⟨a, b⟩ := pr
    simp only [List.map_cons, List.nodup_cons] at hnd
    by_cases hak : a = k
    · subst hak
      simp [alookup] at h
      subst h
      show alookup a (applyData (ainsert a b attrs) rest) = some b
      rw [alookup_applyData_none (alookup_eq_none_of_not_mem_keys hnd.1),
        alookup_ainsert_self]
    · simp only [alookup, hak, if_false] at h
      exact ih hnd.2 h (ainsert a b attrs)

/-! ### Small list bridges -/

theorem getElem?_eq_some_cAt {cs : List Customer} {p : Nat} (h : p < cs.length) :
    cs[p]? = some (cAt cs p) := by
  simp [cAt, List.getElem?_eq_getElem h]

theorem cAt_of_getElem? {cs : List Customer} {p : Nat} {c : Customer}
    (h : cs[p]? = some c) : cAt cs p = c := by
  simp [cAt, h]

theorem set_self {α : Type} {l : List α} {p : Nat} {c : α} (h : l[p]? = some c) :
    l.set p c = l := by
  induction l generalizing p with
  | nil => simp at h
  | cons a rest ih =>
    cases p with
    | zero =>
      simp only [List.getElem?_cons_zero, Option.some.injEq] at h
      simp [h]
    | succ p' =>
      simp only [List.getElem?_cons_succ] at h
      simp [List.set, ih h]

theorem raiseLU_le (c : Customer) (ts : Int) :
    c.LastUpdated ≤ (raiseLU c ts).LastUpdated := by
  unfold raiseLU
  split
  · simp; omega
  · simp

/-! ### The two-cursor index-repair walk -/

/-- A position `q` is visited by the walk from `(i, j)` exactly when it
lies in `[i, j]` and is not the midpoint of a segment of odd length
(`i + j = 2 * q`); `goodDelete` states, for a concrete store, that the
repair after deleting `id` rewrites the index entry of the moved
customer: the deleted position is the last one (nothing moves) or it is a
position the walk from `(0, newLength - 1)` visits. -/
def goodDelete (ds : Datastore) (id : Int) : Bool :=
  match alookup id ds.customerLinks with
  | none => true
  | some pos =>
    pos = ds.customers.length - 1 || 2 * pos ≠ ds.customers.length - 2

/-- Sequences of operations whose deletes all satisfy `goodDelete` in the
state they execute in. -/
def goodOp (ds : Datastore) : Op → Bool
  | .create _ _ _ => true
  | .delete id => goodDelete ds id

def goodTrace : Datastore → List Op → Bool
  | _, [] => true
  | ds, op :: ops => goodOp ds op && goodTrace (applyOp ds op) ops

theorem lt_of_getElem?_some {α : Type} {l : List α} {n : Nat} {a : α}
    (h : l[n]? = some a) : n < l.length := by
  by_contra hc
  rw [List.getElem?_eq_none (by omega)] at h
  cases h

/-- Every binding of the repaired index either survives from the input
map or is a correct binding for a position inside the walked segment. -/
theorem fixLinksAux_mem {cs : List Customer} {fuel i j : Nat} {links : List (Int × Nat)}
    {pr : Int × Nat} (h : pr ∈ fixLinksAux cs fuel i j links) :
    pr ∈ links ∨ ∃ cp, cs[pr.2]? = some cp ∧ cp.ID = pr.1 ∧ i ≤ pr.2 ∧ pr.2 ≤ j := by
  induction fuel generalizing i j links with
  | zero => exact Or.inl h
  | succ fuel ih =>
    unfold fixLinksAux at h
    by_cases hij : i < j
    · rw [if_pos hij] at h
      cases hci : cs[i]? with
      | none =>
        rw [hci] at h
        cases hcj : cs[j]? with
        | none => rw [hcj] at h; exact Or.inl h
        | some cj => rw [hcj] at h; exact Or.inl h
      | some ci =>
        rw [hci] at h
        cases hcj : cs[j]? with
        | none => rw [hcj] at h; exact Or.inl h
        | some cj =>
          rw [hcj] at h
          rcases ih h with h' | ⟨cp, hcp, hid, hlo, hhi⟩
          · rcases mem_ainsert h' with h'' | ⟨h'', -⟩
            · subst h''
              exact Or.inr ⟨cj, hcj, rfl, by omega, le_rfl⟩
            · rcases mem_ainsert h'' with h3 | ⟨h3, -⟩
              · subst h3
                exact Or.inr ⟨ci, hci, rfl, le_rfl, by omega⟩
              · exact Or.inl h3
          · exact Or.inr ⟨cp, hcp, hid, by omega, by omega⟩
    · rw [if_neg hij] at h
      exact Or.inl h

/-- If no visited position of the walked segment stores a customer with
id `id`, the walk does not disturb the binding of `id`. -/
theorem fixLinksAux_unwritten {cs : List Customer} {id : Int} {fuel i j : Nat}
    {links : List (Int × Nat)}
    (h : ∀ q cq, i ≤ q → q ≤ j → i + j ≠ 2 * q → cs[q]? = some cq → cq.ID ≠ id) :
    alookup id (fixLinksAux cs fuel i j links) = alookup id links := by
  induction fuel generalizing i j links with
  | zero => rfl
  | succ fuel ih =>
    unfold fixLinksAux
    by_cases hij : i < j
    · rw [if_pos hij]
      cases hci : cs[i]? with
      | none =>
        cases hcj : cs[j]? with
        | none => rfl
        | some cj => rfl
      | some ci =>
        cases hcj : cs[j]? with
        | none => rfl
        | some cj =>
          have hi : ci.ID ≠ id := h i ci le_rfl (by omega) (by omega) hci
          have hj : cj.ID ≠ id := h j cj (by omega) le_rfl (by omega) hcj
          rw [ih (fun q cq hlo hhi hmid hq =>
            h q cq (by omega) (by omega) (by omega) hq)]
          rw [alookup_ainsert_ne (Ne.symm hj), alookup_ainsert_ne (Ne.symm hi)]
    · rw [if_neg hij]

/-- With enough fuel and distinct stored ids, the id stored at a visited
position ends up bound to exactly that position. -/
theorem fixLinksAux_written {cs : List Customer}
    (hinj : ∀ p q, p < cs.length → q < cs.length → (cAt cs p).ID = (cAt cs q).ID → p = q)
    {fuel i j p : Nat} {links : List (Int × Nat)}
    (hfuel : j - i ≤ 2 * fuel) (hj : j < cs.length)
    (hip : i ≤ p) (hpj : p ≤ j) (hv : i + j ≠ 2 * p) :
    alookup (cAt cs p).ID (fixLinksAux cs fuel i j links) = some p := by
  induction fuel generalizing i j links with
  | zero => omega
  | succ fuel ih =>
    have hij : i < j := by omega
    have hci : cs[i]? = some (cAt cs i) := getElem?_eq_some_cAt (by omega)
    have hcj : cs[j]? = some (cAt cs j) := getElem?_eq_some_cAt hj
    unfold fixLinksAux
    rw [if_pos hij, hci, hcj]
    by_cases hpi : p = i
    · subst hpi
      rw [fixLinksAux_unwritten (fun q cq hlo hhi hmid hq => by
        have hqlen : q < cs.length := lt_of_getElem?_some hq
        have : cAt cs q = cq := cAt_of_getElem? hq
        intro hcontra
        have := hinj q p hqlen (by omega) (by rw [this, hcontra])
        omega)]
      have hne : (cAt cs p).ID ≠ (cAt cs j).ID := fun hc => by
        have := hinj p j (by omega) hj hc
        omega
      rw [alookup_ainsert_ne hne, alookup_ainsert_self]
    · by_cases hpj' : p = j
      · subst hpj'
        rw [fixLinksAux_unwritten (fun q cq hlo hhi hmid hq => by
          have hqlen : q < cs.length := lt_of_getElem?_some hq
          have : cAt cs q = cq := cAt_of_getElem? hq
          intro hcontra
          have := hinj q p hqlen hj (by rw [this, hcontra])
          omega)]
        rw [alookup_ainsert_self]
      · exact ih (by omega) (by omega) (by omega) (by omega) (by omega)

/-- With enough fuel and distinct stored ids, the id stored at a visited
position has no binding other than to that position in the repaired
index. -/
theorem fixLinksAux_unique {cs : List Customer}
    (hinj : ∀ p q, p < cs.length → q < cs.length → (cAt cs p).ID = (cAt cs q).ID → p = q)
    {fuel i j p v : Nat} {links : List (Int × Nat)}
    (hfuel : j - i ≤ 2 * fuel) (hj : j < cs.length)
    (hip : i ≤ p) (hpj : p ≤ j) (hv : i + j ≠ 2 * p)
    (hmem : ((cAt cs p).ID, v) ∈ fixLinksAux cs fuel i j links) : v = p := by
  induction fuel generalizing i j links with
  | zero => omega
  | succ fuel ih =>
    have hij : i < j := by omega
    have hci : cs[i]? = some (cAt cs i) := getElem?_eq_some_cAt (by omega)
    have hcj : cs[j]? = some (cAt cs j) := getElem?_eq_some_cAt hj
    unfold fixLinksAux at hmem
    rw [if_pos hij, hci, hcj] at hmem
    by_cases hpi : p = i
    · subst hpi
      rcases fixLinksAux_mem hmem with h' | ⟨cp, hcp, hid, hlo, hhi⟩
      · rcases mem_ainsert h' with h'' | ⟨h'', hne⟩
        · have h1 : (cAt cs p).ID = (cAt cs j).ID := congrArg Prod.fst h''
          have := hinj p j (by omega) hj h1
          omega
        · rcases mem_ainsert h'' with h3 | ⟨h3, hne3⟩
          · exact congrArg Prod.snd h3
          · exact absurd rfl hne3
      · have hvlen : v < cs.length := lt_of_getElem?_some hcp
        have hcp' : cAt cs v = cp := cAt_of_getElem? hcp
        have := hinj v p hvlen (by omega) (by rw [hcp', hid])
        omega
    · by_cases hpj' : p = j
      · subst hpj'
        rcases fixLinksAux_mem hmem with h' | ⟨cp, hcp, hid, hlo, hhi⟩
        · rcases mem_ainsert h' with h'' | ⟨h'', hne⟩
          · exact congrArg Prod.snd h''
          · exact absurd rfl hne
        · have hvlen : v < cs.length := lt_of_getElem?_some hcp
          have hcp' : cAt cs v = cp := cAt_of_getElem? hcp
          have := hinj v p hvlen hj (by rw [hcp', hid])
          omega
      · exact ih (by omega) (by omega) (by omega) (by omega) (by omega) hmem

/-! ### Preservation of invariant I1 -/

theorem cAt_congr {cs1 cs2 : List Customer} {p q : Nat} (h : cs1[p]? = cs2[q]?) :
    cAt cs1 p = cAt cs2 q := by
  unfold cAt
  rw [h]

theorem cAt_append_left {cs l : List Customer} {p : Nat} (h : p < cs.length) :
    cAt (cs ++ l) p = cAt cs p :=
  cAt_congr (List.getElem?_append_left h)

theorem cAt_concat_self (cs : List Customer) (c : Customer) :
    cAt (cs ++ [c]) cs.length = c := by
  unfold cAt
  rw [List.getElem?_concat_length]
  rfl

/-- Two distinct storage positions of a valid store hold customers with
distinct ids (I2, a consequence of I1). -/
theorem valid_inj {ds : Datastore} (h : Valid ds) {p q : Nat}
    (hp : p < ds.customers.length) (hq : q < ds.customers.length)
    (heq : (cAt ds.customers p).ID = (cAt ds.customers q).ID) : p = q := by
  have h1 := h.1 p hp
  have h2 := h.1 q hq
  rw [heq] at h1
  rw [h1] at h2
  exact Option.some.inj h2

/-- A successful `Create` preserves I1. -/
theorem valid_Create {ds : Datastore} {id : Int} {attrs : List (String × String)}
    {now : Int} {c : Customer} {ds' : Datastore} (h : Valid ds)
    (hok : ds.Create id attrs now = .ok (c, ds')) : Valid ds' := by
  unfold Datastore.Create at hok
  by_cases hex : (alookup id ds.customerLinks).isSome
  · rw [if_pos hex] at hok
    cases hok
  · rw [if_neg hex] at hok
    have hnone : alookup id ds.customerLinks = none := Option.not_isSome_iff_eq_none.mp hex
    have hds' : ds' = (registerCustomer ds id attrs now).2 := by
      have := Except.ok.inj hok
      rw [this]
    subst hds'
    unfold registerCustomer
    refine ⟨?_, ?_⟩
    · intro p hp
      dsimp only at hp ⊢
      rw [List.length_append, List.length_cons, List.length_nil] at hp
      by_cases hpl : p < ds.customers.length
      · rw [cAt_append_left hpl]
        have hne : (cAt ds.customers p).ID ≠ id := by
          intro hcontra
          have := h.1 p hpl
          rw [hcontra, hnone] at this
          cases this
        rw [alookup_ainsert_ne hne]
        exact h.1 p hpl
      · have hp' : p = ds.customers.length := by omega
        subst hp'
        rw [cAt_concat_self]
        exact alookup_ainsert_self ..
    · intro pr hpr
      dsimp only at hpr ⊢
      rcases mem_ainsert hpr with h1 | ⟨h1, hne⟩
      · subst h1
        refine ⟨by simp, ?_⟩
        rw [cAt_concat_self]
      · obtain ⟨hlt, hids⟩ := h.2 pr h1
        refine ⟨by simp; omega, ?_⟩
        rw [cAt_append_left hlt]
        exact hids

/-- The heart of the Delete case: after the swap-and-truncate, the
two-cursor repair restores I1 provided the deleted position was the last
one or a position the walk visits. -/
theorem valid_afterDelete {cs cs1 : List Customer} {links links1 : List (Int × Nat)}
    {proc : List (String × Bool)} {id : Int} {pos : Nat}
    (hfw : ∀ p, p < cs.length → alookup (cAt cs p).ID links = some p)
    (hbw : ∀ pr ∈ links, pr.2 < cs.length ∧ (cAt cs pr.2).ID = pr.1)
    (hlk : alookup id links = some pos) (hposL : pos < cs.length)
    (hg : pos = cs.length - 1 ∨ 2 * pos ≠ cs.length - 2)
    (hcs1 : cs1 = (cs.set pos (cAt cs (cs.length - 1))).take (cs.length - 1))
    (hlinks1 : links1 = aerase id links) :
    Valid ⟨cs1, fixLinksAux cs1 cs1.length 0 (cs1.length - 1) links1, proc⟩ := by
  have hposID : (cAt cs pos).ID = id := (hbw _ (mem_of_alookup hlk)).2
  have hinj : ∀ p q, p < cs.length → q < cs.length →
      (cAt cs p).ID = (cAt cs q).ID → p = q := by
    intro p q hp hq heq
    have h1 := hfw p hp
    rw [heq] at h1
    have h2 := hfw q hq
    rw [h1] at h2
    exact Option.some.inj h2
  have hlen1 : cs1.length = cs.length - 1 := by
    rw [hcs1]
    simp
  have hcs1at : ∀ q, q < cs.length - 1 →
      cAt cs1 q = cAt cs (if q = pos then cs.length - 1 else q) := by
    intro q hq
    by_cases hqp : q = pos
    · subst hqp
      rw [if_pos rfl]
      refine cAt_congr ?_
      rw [hcs1, List.getElem?_take_of_lt hq, List.getElem?_set_self (by omega),
        ← getElem?_eq_some_cAt (by omega)]
    · rw [if_neg hqp]
      refine cAt_congr ?_
      rw [hcs1, List.getElem?_take_of_lt hq,
        List.getElem?_set_ne (fun hh => hqp hh.symm)]
  have hinj1 : ∀ p q, p < cs1.length → q < cs1.length →
      (cAt cs1 p).ID = (cAt cs1 q).ID → p = q := by
    intro p q hp hq heq
    rw [hlen1] at hp hq
    rw [hcs1at p hp, hcs1at q hq] at heq
    by_cases hpp : p = pos <;> by_cases hqq : q = pos
    · omega
    · rw [if_pos hpp, if_neg hqq] at heq
      have := hinj (cs.length - 1) q (by omega) (by omega) heq
      omega
    · rw [if_neg hpp, if_pos hqq] at heq
      have := hinj p (cs.length - 1) (by omega) (by omega) heq
      omega
    · rw [if_neg hpp, if_neg hqq] at heq
      exact hinj p q (by omega) (by omega) heq
  refine ⟨?_, ?_⟩
  · intro p hp
    dsimp only at hp ⊢
    by_cases hvis : 0 + (cs1.length - 1) = 2 * p
    · have hppos : p ≠ pos := by
        rw [hlen1] at hp hvis
        rcases hg with hg | hg <;> omega
      have hkey : cAt cs1 p = cAt cs p := by
        rw [hcs1at p (by omega), if_neg hppos]
      rw [hkey]
      rw [fixLinksAux_unwritten (fun q cq hlo hhi hmid hq => by
        have hqlen : q < cs1.length := lt_of_getElem?_some hq
        have heq : cAt cs1 q = cq := cAt_of_getElem? hq
        intro hcontra
        have : q = p := hinj1 q p hqlen hp (by rw [heq, hcontra, hkey])
        omega)]
      rw [hlinks1]
      have hne : (cAt cs p).ID ≠ id := by
        intro hc
        have : p = pos := hinj p pos (by omega) hposL (by rw [hc, ← hposID])
        exact hppos this
      rw [alookup_aerase_ne hne]
      exact hfw p (by omega)
    · exact fixLinksAux_written hinj1 (by omega) (by omega) (by omega) (by omega)
        (by omega)
  · intro pr hpr
    dsimp only at hpr ⊢
    rcases fixLinksAux_mem hpr with hsurv | ⟨cp, hcp, hid, hlo, hhi⟩
    · rw [hlinks1] at hsurv
      obtain ⟨hmem, hneid⟩ := mem_aerase hsurv
      obtain ⟨hlt, hids⟩ := hbw pr hmem
      by_cases hpp : pr.2 = pos
      · refine absurd (show pr.1 = id from ?_) hneid
        rw [← hids, hpp]
        exact hposID
      · by_cases hplast : pr.2 = cs.length - 1
        · have hposn : pos < cs.length - 1 := by omega
          have hkey : (cAt cs1 pos).ID = pr.1 := by
            rw [hcs1at pos (by omega), if_pos rfl, ← hplast]
            exact hids
          have hmem2 : (pr.1, pr.2) ∈
              fixLinksAux cs1 cs1.length 0 (cs1.length - 1) links1 := hpr
          rw [← hkey] at hmem2
          have hvisited : 0 + (cs1.length - 1) ≠ 2 * pos := by
            rw [hlen1]
            rcases hg with hg | hg <;> omega
          have := fixLinksAux_unique hinj1 (by omega) (by omega) (by omega)
            (by omega) hvisited hmem2
          omega
        · have hlt1 : pr.2 < cs.length - 1 := by omega
          refine ⟨by omega, ?_⟩
          rw [hcs1at pr.2 hlt1, if_neg hpp]
          exact hids
    · have hlt : pr.2 < cs1.length := lt_of_getElem?_some hcp
      exact ⟨hlt, by rw [cAt_of_getElem? hcp]; exact hid⟩

/-- A successful `Delete` satisfying the visit condition preserves I1. -/
theorem valid_Delete {ds ds' : Datastore} {id : Int} (h : Valid ds)
    (hg : goodDelete ds id = true) (hok : ds.Delete id = .ok ds') : Valid ds' := by
  unfold Datastore.Delete at hok
  cases hlk : alookup id ds.customerLinks with
  | none =>
    rw [hlk] at hok
    cases hok
  | some pos =>
    rw [hlk] at hok
    have hposL : pos < ds.customers.length := (h.2 _ (mem_of_alookup hlk)).1
    rw [getElem?_eq_some_cAt (show ds.customers.length - 1 < ds.customers.length by omega)] at hok
    dsimp only at hok
    rw [if_pos hposL] at hok
    have hds' := (Except.ok.inj hok).symm
    subst hds'
    simp only [goodDelete, hlk] at hg
    rw [Bool.or_eq_true, decide_eq_true_eq, decide_eq_true_eq] at hg
    exact valid_afterDelete h.1 h.2 hlk hposL hg rfl rfl

theorem valid_applyOp {ds : Datastore} {op : Op} (h : Valid ds)
    (hg : goodOp ds op = true) : Valid (applyOp ds op) := by
  cases op with
  | create id attrs now =>
    simp only [applyOp]
    cases hc : ds.Create id attrs now with
    | error e => exact h
    | ok pr =>
      obtain ⟨c, ds2⟩ := pr
      exact valid_Create h hc
  | delete id =>
    simp only [applyOp]
    cases hc : ds.Delete id with
    | error e => exact h
    | ok ds2 => exact valid_Delete h hg hc

theorem valid_goodTrace {ops : List Op} : ∀ {ds : Datastore}, Valid ds →
    goodTrace ds ops = true → ∀ k, Valid (applySeq ds (ops.take k)) := by
  induction ops with
  | nil =>
    intro ds h _ k
    simpa [applySeq] using h
  | cons op ops ih =>
    intro ds h hg k
    simp only [goodTrace, Bool.and_eq_true] at hg
    cases k with
    | zero => simpa [applySeq] using h
    | succ k' =>
      rw [List.take_succ_cons]
      show Valid (applySeq (applyOp ds op) (ops.take k'))
      exact ih (valid_applyOp h hg.1) hg.2 k'

/-! ### Claim C1 -/

/-- The trace Create 1, Create 2, Create 3, Create 4, Delete 2: the delete
swaps customer 4 into position 1, and the two-cursor repair of the
resulting odd-length storage never rewrites the middle entry, leaving
`index[4] = 3` — out of bounds of the 3-element storage. -/
def cexOps : List Op :=
  [.create 1 [] 0, .create 2 [] 0, .create 3 [] 0, .create 4 [] 0, .delete 2]

/-- The store reached by `cexOps` from the empty store. -/
def cexStore : Datastore := applySeq emptyStore cexOps

/-- **C1, counterexample**: starting from the (valid) empty Registry, the
Create/Delete sequence `cexOps` produces a state in which the index is
not an exact inverse of the storage positions: I1 fails after the final
Delete, so the claim's universally quantified invariant is false. -/
theorem c1_index_invariant_cex : Valid emptyStore ∧ ¬ Valid cexStore := by
  decide

/-- **C1 (amended)**: for every sequence of Create and Delete operations
starting from a valid Registry state, I1 holds after each operation
*provided* every Delete in the sequence removes either the last storage
position or a position that the two-cursor repair walk visits (deleting
position `p` from a store of length `L` with `p ≠ L - 1` and
`2 * p = L - 2` leaves the moved customer's index entry stale, as the
counterexample shows). -/
theorem c1_index_invariant_amended {ds : Datastore} {ops : List Op}
    (h : Valid ds) (hg : goodTrace ds ops = true) :
    ∀ k, Valid (applySeq ds (ops.take k)) :=
  valid_goodTrace h hg

/-- **C1, witness**: a concrete run of the amended theorem on a
three-operation trace whose delete removes the last position. -/
theorem c1_index_invariant_amended_witness :
    Valid (applySeq emptyStore ([Op.create 1 [] 0, Op.create 2 [] 0, Op.delete 2].take 3)) :=
  c1_index_invariant_amended (by decide) (by decide) 3

/-! ### Claim C2 -/

/-- **C2, counterexample**: in the Create/Delete-reachable state
`cexStore`, id 4 is present in the index with entry 3, but the dense
storage has length 3 (customer 4 actually sits at position 1), so the
storage access of `Get` is out of bounds and fails (a Go panic) instead
of returning a stored customer. -/
theorem c2_get_stale_index_cex :
    alookup 4 cexStore.customerLinks = some 3 ∧
    cexStore.customers.length = 3 ∧
    (cAt cexStore.customers 1).ID = 4 ∧
    cexStore.Get 4 = .error "panic: index out of range" := by
  decide

/-- **C2 (amended)**: for every id present in the index, `Get` returns
without failure the customer stored at the index entry — possibly a wrong
customer after a stale repair — *when that entry is within bounds of the
dense storage*; a stale entry can also be out of bounds, in which case the
storage access fails (a Go panic) rather than silently returning a
customer. -/
theorem c2_get_stale_index_amended {ds : Datastore} {id : Int} {pos : Nat}
    (h : alookup id ds.customerLinks = some pos) :
    (pos < ds.customers.length → ds.Get id = .ok (cAt ds.customers pos)) ∧
    (ds.customers.length ≤ pos → ds.Get id = .error "panic: index out of range") := by
  constructor
  · intro hlt
    simp [Datastore.Get, h, getElem?_eq_some_cAt hlt]
  · intro hge
    simp [Datastore.Get, h, List.getElem?_eq_none hge]

/-- **C2, witness**: on the singleton store created by `Create 1`, the
index entry of id 1 is 0, in bounds, and `Get` returns the stored
customer. -/
theorem c2_get_stale_index_amended_witness :
    (applySeq emptyStore [Op.create 1 [] 0]).Get 1 =
      .ok (cAt (applySeq emptyStore [Op.create 1 [] 0]).customers 0) :=
  (c2_get_stale_index_amended (by decide)).1 (by decide)

/-! ### Claim C10 -/

/-- **C10**: `List` ignores its pagination parameters: for every Registry
state and every choice of `page` and `count` it succeeds and returns
exactly the stored customer sequence in storage order (hence the result
is identical for all parameter choices and never omits or duplicates a
stored customer). -/
theorem c10_list_ignores_pagination (ds : Datastore) (page count : Int) :
    ds.List page count = Except.ok ds.customers := rfl

/-! ### Claim C9 -/

/-- **C9**: `Create` fails with AlreadyExists exactly when the id is
present (failing before touching any state, so the Registry is
unchanged); when the id is absent it appends a new customer whose
attributes are a copy of the supplied map and indexes the id at the new
last position; in particular `Create 5 {}` twice starting from the empty
Registry fails the second time with AlreadyExists. -/
theorem c9_create_collision (ds : Datastore) (id : Int)
    (attrs : List (String × String)) (now : Int) :
    ((alookup id ds.customerLinks).isSome →
        ds.Create id attrs now = .error "customer already exists") ∧
    (alookup id ds.customerLinks = none →
        ds.Create id attrs now =
          .ok (⟨id, applyData [] attrs, [], now⟩,
            ⟨ds.customers ++ [⟨id, applyData [] attrs, [], now⟩],
             ainsert id ds.customers.length ds.customerLinks,
             ds.processedEventsMap⟩) ∧
        ((attrs.map Prod.fst).Nodup →
          ∀ k, alookup k (applyData [] attrs) = alookup k attrs)) ∧
    (∃ c ds5, emptyStore.Create 5 [] now = .ok (c, ds5) ∧
        ds5.Create 5 [] now = .error "customer already exists") := by
  refine ⟨?_, ?_, ?_⟩
  · intro hex
    simp [Datastore.Create, hex]
  · intro hnone
    refine ⟨?_, ?_⟩
    · simp [Datastore.Create, hnone, registerCustomer]
    · intro hnd k
      cases hc : alookup k attrs with
      | none => rw [alookup_applyData_none hc]; rfl
      | some v => rw [alookup_applyData_some hnd hc]
  · exact ⟨⟨5, [], [], now⟩, ⟨[⟨5, [], [], now⟩], [(5, 0)], []⟩, rfl, rfl⟩

/-- **C9, witness**: the two collision branches exercised concretely:
creating id 5 on the empty store succeeds, creating it again on the
resulting store fails with AlreadyExists. -/
theorem c9_create_collision_witness :
    emptyStore.Create 5 [] 7 =
      .ok (⟨5, [], [], 7⟩, ⟨[⟨5, [], [], 7⟩], [(5, 0)], []⟩) ∧
    (Datastore.mk [⟨5, [], [], 7⟩] [(5, 0)] []).Create 5 [] 7 =
      .error "customer already exists" :=
  ⟨((c9_create_collision emptyStore 5 [] 7).2.1 rfl).1,
   (c9_create_collision ⟨[⟨5, [], [], 7⟩], [(5, 0)], []⟩ 5 [] 7).1 rfl⟩

/-! ### Claim C7 -/

/-- The record sequence of the end-to-end ingestion scenario. -/
def c7Records : List Record :=
  [⟨"e1", "1", "event", "open", 10, []⟩,
   ⟨"a1", "1", "attributes", "", 5, [("color", "red")]⟩,
   ⟨"a2", "1", "attributes", "", 20, [("color", "blue")]⟩]

/-- **C7**: ingesting, into an empty Registry, an "open" event for user 1
at timestamp 10, then attributes {color: red} at timestamp 5 (dropped as
stale), then attributes {color: blue} at timestamp 20, yields exactly one
customer with id 1, events {open ↦ 1}, attributes {color ↦ blue}, and
lastUpdated 20. -/
theorem c7_end_to_end_ingest :
    New c7Records =
      .ok ⟨[⟨1, [("color", "blue")], [("open", 1)], 20⟩], [(1, 0)], [("e1", true)]⟩ := by
  decide

/-! ### The ingestion step, decomposed -/

/-- The state after the register-if-absent phase of one `New` loop
iteration (datastore.go:38-47), given that the user id parsed to `uid`. -/
def regStep (ds : Datastore) (r : Record) (uid : Int) : Datastore :=
  if (alookup uid ds.customerLinks).isSome then ds
  else
    ⟨ds.customers ++ [⟨uid, [], [], r.Timestamp⟩],
     ainsert uid ds.customers.length ds.customerLinks,
     ds.processedEventsMap⟩

theorem regStep_processed (ds : Datastore) (r : Record) (uid : Int) :
    (regStep ds r uid).processedEventsMap = ds.processedEventsMap := by
  unfold regStep
  split <;> rfl

theorem ingestStep_unparseable {ds : Datastore} {r : Record}
    (h : atoi r.UserID = none) : ingestStep ds r = .ok ds := by
  unfold ingestStep isUserRegistered
  rw [h]

/-- When the user id parses, one ingestion iteration is the registration
phase followed by `processRecord`. -/
theorem ingestStep_eq_processRecord {ds : Datastore} {r : Record} {uid : Int}
    (hp : atoi r.UserID = some uid) :
    ingestStep ds r = processRecord (regStep ds r uid) r := by
  by_cases hex : (alookup uid ds.customerLinks).isSome
  · simp [ingestStep, isUserRegistered, regStep, hp, hex]
  · simp [ingestStep, isUserRegistered, regStep, registerCustomerFromRecord, hp, hex]

/-- `processRecord` when the linked position is out of storage range: the
Go slice access panics. -/
theorem processRecord_oob {ds : Datastore} {r : Record} {uid : Int} {q : Nat}
    (hp : atoi r.UserID = some uid)
    (hq : (alookup uid ds.customerLinks).getD 0 = q)
    (hcq : ds.customers[q]? = none) :
    processRecord ds r = .error "panic: index out of range" := by
  simp [processRecord, hp, hq, hcq]

/-- `processRecord` on an event whose record id was already processed:
the store is returned unchanged (the early return also skips the
watermark update). -/
theorem processRecord_dup_event {ds : Datastore} {r : Record} {uid : Int} {q : Nat}
    {c : Customer} (hp : atoi r.UserID = some uid)
    (hq : (alookup uid ds.customerLinks).getD 0 = q)
    (hcq : ds.customers[q]? = some c) (hk : r.Kind = "event")
    (hdup : (alookup r.ID ds.processedEventsMap).isSome = true) :
    processRecord ds r = .ok ds := by
  simp [processRecord, hp, hq, hcq, hk, hdup]

/-- `processRecord` on a fresh event: bump the count, mark the record id,
raise the watermark. -/
theorem processRecord_event {ds : Datastore} {r : Record} {uid : Int} {q : Nat}
    {c : Customer} (hp : atoi r.UserID = some uid)
    (hq : (alookup uid ds.customerLinks).getD 0 = q)
    (hcq : ds.customers[q]? = some c) (hk : r.Kind = "event")
    (hdup : alookup r.ID ds.processedEventsMap = none) :
    processRecord ds r =
      .ok ⟨ds.customers.set q
             (raiseLU { c with Events := bumpEvent c.Events r.Name } r.Timestamp),
           ds.customerLinks,
           ainsert r.ID true ds.processedEventsMap⟩ := by
  simp [processRecord, hp, hq, hcq, hk, hdup]

/-- `processRecord` on an attributes record: merge the data only when the
record's timestamp is at or after the watermark, then raise the
watermark. -/
theorem processRecord_attrs {ds : Datastore} {r : Record} {uid : Int} {q : Nat}
    {c : Customer} (hp : atoi r.UserID = some uid)
    (hq : (alookup uid ds.customerLinks).getD 0 = q)
    (hcq : ds.customers[q]? = some c) (hk : r.Kind = "attributes") :
    processRecord ds r =
      .ok ⟨ds.customers.set q
             (raiseLU
               (if c.LastUpdated ≤ r.Timestamp then
                 { c with Attributes := applyData c.Attributes r.Data }
               else c) r.Timestamp),
           ds.customerLinks, ds.processedEventsMap⟩ := by
  simp [processRecord, hp, hq, hcq, hk]

/-- `processRecord` on a record of unknown kind: only the watermark
update runs. -/
theorem processRecord_other {ds : Datastore} {r : Record} {uid : Int} {q : Nat}
    {c : Customer} (hp : atoi r.UserID = some uid)
    (hq : (alookup uid ds.customerLinks).getD 0 = q)
    (hcq : ds.customers[q]? = some c)
    (hk1 : ¬ r.Kind = "event") (hk2 : ¬ r.Kind = "attributes") :
    processRecord ds r =
      .ok ⟨ds.customers.set q (raiseLU c r.Timestamp),
           ds.customerLinks, ds.processedEventsMap⟩ := by
  simp [processRecord, hp, hq, hcq, hk1, hk2]

theorem raiseLU_attrs (c : Customer) (ts : Int) :
    (raiseLU c ts).Attributes = c.Attributes := by
  unfold raiseLU
  split <;> rfl

theorem raiseLU_events (c : Customer) (ts : Int) :
    (raiseLU c ts).Events = c.Events := by
  unfold raiseLU
  split <;> rfl

theorem raiseLU_of_le {c : Customer} {ts : Int} (h : c.LastUpdated ≤ ts) :
    (raiseLU c ts).LastUpdated = ts := by
  unfold raiseLU
  split
  · rfl
  · omega

theorem raiseLU_noop {c : Customer} {ts : Int} (h : ts ≤ c.LastUpdated) :
    raiseLU c ts = c := by
  unfold raiseLU
  rw [if_neg (by omega)]

/-! ### Claim C8 -/

/-- During ingestion every index entry stays within storage bounds: the
invariant that makes the `processRecord` slice access safe inside `New`. -/
def LinksBounded (ds : Datastore) : Prop :=
  ∀ pr ∈ ds.customerLinks, pr.2 < ds.customers.length

theorem regStep_bounded {ds : Datastore} {r : Record} {uid : Int}
    (h : LinksBounded ds) : LinksBounded (regStep ds r uid) := by
  unfold regStep
  split
  · exact h
  · intro pr hpr
    dsimp only at hpr ⊢
    rw [List.length_append, List.length_cons, List.length_nil]
    rcases mem_ainsert hpr with h1 | ⟨h1, -⟩
    · subst h1
      omega
    · have := h _ h1
      omega

/-- Under bounded links, one ingestion iteration always succeeds and
keeps the links bounded: the fatal-error branch of `New` after a
successful parse is unreachable. -/
theorem ingestStep_ok {ds : Datastore} (r : Record) (h : LinksBounded ds) :
    ∃ ds', ingestStep ds r = .ok ds' ∧ LinksBounded ds' := by
  cases hp : atoi r.UserID with
  | none => exact ⟨ds, ingestStep_unparseable hp, h⟩
  | some uid =>
    rw [ingestStep_eq_processRecord hp]
    have hb1 : LinksBounded (regStep ds r uid) := regStep_bounded h
    have hlk1 : ∃ p, alookup uid (regStep ds r uid).customerLinks = some p := by
      unfold regStep
      by_cases hex : (alookup uid ds.customerLinks).isSome
      · rw [if_pos hex]
        exact Option.isSome_iff_exists.mp hex
      · rw [if_neg hex]
        exact ⟨ds.customers.length, alookup_ainsert_self ..⟩
    obtain ⟨p, hlk1⟩ := hlk1
    have hplen : p < (regStep ds r uid).customers.length :=
      hb1 _ (mem_of_alookup hlk1)
    have hq : (alookup uid (regStep ds r uid).customerLinks).getD 0 = p := by
      rw [hlk1]
      rfl
    have hc1 : (regStep ds r uid).customers[p]? =
        some (cAt (regStep ds r uid).customers p) := getElem?_eq_some_cAt hplen
    by_cases hk : r.Kind = "event"
    · cases hdup : alookup r.ID (regStep ds r uid).processedEventsMap with
      | some b =>
        rw [processRecord_dup_event hp hq hc1 hk (by rw [hdup]; rfl)]
        exact ⟨_, rfl, hb1⟩
      | none =>
        rw [processRecord_event hp hq hc1 hk hdup]
        refine ⟨_, rfl, ?_⟩
        intro pr hpr
        dsimp only at hpr ⊢
        rw [List.length_set]
        exact hb1 pr hpr
    · by_cases hk2 : r.Kind = "attributes"
      · rw [processRecord_attrs hp hq hc1 hk2]
        refine ⟨_, rfl, ?_⟩
        intro pr hpr
        dsimp only at hpr ⊢
        rw [List.length_set]
        exact hb1 pr hpr
      · rw [processRecord_other hp hq hc1 hk hk2]
        refine ⟨_, rfl, ?_⟩
        intro pr hpr
        dsimp only at hpr ⊢
        rw [List.length_set]
        exact hb1 pr hpr

/-- **C8**: invalid-input records are non-fatal and contribute nothing —
a record whose user id fails to parse leaves the whole Registry state
unchanged (and ingestion moves on), and `New` never aborts with an error
on any input record sequence (the fatal branch after a successful parse
is unreachable, and ingestion from the empty store never panics). -/
theorem c8_invalid_input_nonfatal :
    (∀ (ds : Datastore) (r : Record), atoi r.UserID = none →
        ingestStep ds r = .ok ds) ∧
    (∀ records : List Record, ∃ ds, New records = .ok ds) := by
  constructor
  · exact fun ds r hp => ingestStep_unparseable hp
  · have main : ∀ (records : List Record) (ds : Datastore), LinksBounded ds →
        ∃ ds', NewLoop ds records = .ok ds' := by
      intro records
      induction records with
      | nil => exact fun ds _ => ⟨ds, rfl⟩
      | cons r rest ih =>
        intro ds h
        obtain ⟨ds1, hstep, hb⟩ := ingestStep_ok r h
        obtain ⟨ds2, h2⟩ := ih ds1 hb
        refine ⟨ds2, ?_⟩
        unfold NewLoop
        rw [hstep]
        exact h2
    intro records
    exact main records emptyStore (fun pr hpr => by cases hpr)

/-- **C8, witness**: a record with the unparseable user id "x" leaves the
empty store unchanged, and `New` succeeds on the one-record sequence
containing it. -/
theorem c8_invalid_input_nonfatal_witness :
    ingestStep emptyStore ⟨"r1", "x", "event", "n", 1, []⟩ = .ok emptyStore ∧
    ∃ ds, New [⟨"r1", "x", "event", "n", 1, []⟩] = .ok ds :=
  ⟨c8_invalid_input_nonfatal.1 emptyStore ⟨"r1", "x", "event", "n", 1, []⟩ rfl,
   c8_invalid_input_nonfatal.2 [⟨"r1", "x", "event", "n", 1, []⟩]⟩

/-! ### Claim C3 -/

/-- The number of occurrences of event `name` recorded for the customer
the index associates with `uid` (0 when absent anywhere along the path). -/
def eventCount (s : Datastore) (uid : Int) (name : String) : Nat :=
  match alookup uid s.customerLinks with
  | none => 0
  | some p =>
    match s.customers[p]? with
    | none => 0
    | some c => (alookup name c.Events).getD 0

/-- After a successful ingestion of an event record, its record id is in
the processed set (it either just got inserted or was already there). -/
theorem ingestStep_marks {ds ds' : Datastore} {r : Record} {uid : Int}
    (hk : r.Kind = "event") (hp : atoi r.UserID = some uid)
    (h : ingestStep ds r = .ok ds') :
    (alookup r.ID ds'.processedEventsMap).isSome = true := by
  rw [ingestStep_eq_processRecord hp] at h
  cases hcq : (regStep ds r uid).customers[(alookup uid (regStep ds r uid).customerLinks).getD 0]? with
  | none =>
    rw [processRecord_oob hp rfl hcq] at h
    cases h
  | some c0 =>
    cases hdup : alookup r.ID (regStep ds r uid).processedEventsMap with
    | some b =>
      rw [processRecord_dup_event hp rfl hcq hk (by rw [hdup]; rfl)] at h
      have hds := Except.ok.inj h
      rw [← hds, hdup]
      rfl
    | none =>
      rw [processRecord_event hp rfl hcq hk hdup] at h
      have hds := Except.ok.inj h
      rw [← hds]
      dsimp only
      rw [alookup_ainsert_self]
      rfl

/-- Registration of a fresh customer changes no event count: the new
customer starts with an empty events map and existing customers keep
their positions. -/
theorem eventCount_regStep (ds : Datastore) (r : Record) (uid u : Int) (name : String) :
    eventCount (regStep ds r uid) u name = eventCount ds u name := by
  unfold regStep
  by_cases hex : (alookup uid ds.customerLinks).isSome
  · rw [if_pos hex]
  · rw [if_neg hex]
    have hnone : alookup uid ds.customerLinks = none :=
      Option.not_isSome_iff_eq_none.mp hex
    by_cases hu : u = uid
    · subst hu
      unfold eventCount
      dsimp only
      rw [alookup_ainsert_self, hnone]
      dsimp only
      rw [List.getElem?_concat_length]
      rfl
    · unfold eventCount
      dsimp only
      rw [alookup_ainsert_ne hu]
      cases hl : alookup u ds.customerLinks with
      | none => rfl
      | some p =>
        dsimp only
        rcases Nat.lt_trichotomy p ds.customers.length with hlt | heq | hgt
        · rw [List.getElem?_append_left hlt]
        · rw [heq, List.getElem?_concat_length,
            List.getElem?_eq_none (le_refl ds.customers.length)]
          rfl
        · rw [List.getElem?_eq_none
              (show (ds.customers ++ [(⟨uid, [], [], r.Timestamp⟩ : Customer)]).length ≤ p by
                rw [List.length_append, List.length_cons, List.length_nil]; omega),
            List.getElem?_eq_none (by omega)]

/-- **C3**: event idempotence under at-least-once delivery.  Applying two
event records carrying the same `recordId` one after another — the second
of which may even name a different customer — leaves every event count of
every customer exactly as it was after the first application, because the
applied-recordId set is global to the Registry.  (The side condition asks
that the first record's user id parse, or that both records carry the
same user id, which covers applying one record twice verbatim.) -/
theorem c3_event_idempotence {s s1 s2 : Datastore} {r1 r2 : Record}
    (hk1 : r1.Kind = "event") (hk2 : r2.Kind = "event")
    (hid : r2.ID = r1.ID)
    (hu : (atoi r1.UserID).isSome = true ∨ r1.UserID = r2.UserID)
    (h1 : ingestStep s r1 = .ok s1) (h2 : ingestStep s1 r2 = .ok s2) :
    ∀ (uid : Int) (name : String), eventCount s2 uid name = eventCount s1 uid name := by
  by_cases hps : (atoi r1.UserID).isSome = true
  · obtain ⟨uid1, hp1⟩ := Option.isSome_iff_exists.mp hps
    have hmark : (alookup r1.ID s1.processedEventsMap).isSome = true :=
      ingestStep_marks hk1 hp1 h1
    cases hp2 : atoi r2.UserID with
    | none =>
      rw [ingestStep_unparseable hp2] at h2
      have h' := Except.ok.inj h2
      subst h'
      exact fun _ _ => rfl
    | some uid2 =>
      rw [ingestStep_eq_processRecord hp2] at h2
      cases hcq : (regStep s1 r2 uid2).customers[(alookup uid2 (regStep s1 r2 uid2).customerLinks).getD 0]? with
      | none =>
        rw [processRecord_oob hp2 rfl hcq] at h2
        cases h2
      | some c0 =>
        have hdup2 : (alookup r2.ID (regStep s1 r2 uid2).processedEventsMap).isSome = true := by
          rw [regStep_processed, hid]
          exact hmark
        rw [processRecord_dup_event hp2 rfl hcq hk2 hdup2] at h2
        have hs2 := Except.ok.inj h2
        subst hs2
        exact fun uid name => eventCount_regStep s1 r2 uid2 uid name
  · have hueq : r1.UserID = r2.UserID := hu.resolve_left hps
    have hp1 : atoi r1.UserID = none :=
      Option.not_isSome_iff_eq_none.mp (by simpa using hps)
    have hp2 : atoi r2.UserID = none := by
      rw [← hueq]
      exact hp1
    rw [ingestStep_unparseable hp2] at h2
    have h' := Except.ok.inj h2
    subst h'
    exact fun _ _ => rfl

/-- First record of the idempotence witness: event e1 for user 1. -/
def c3r1 : Record := ⟨"e1", "1", "event", "open", 10, []⟩

/-- Second record of the idempotence witness: the same record id e1
re-delivered, this time naming user 2. -/
def c3r2 : Record := ⟨"e1", "2", "event", "open", 5, []⟩

/-- The store after ingesting `c3r1` into the empty store. -/
def c3s1 : Datastore := ⟨[⟨1, [], [("open", 1)], 10⟩], [(1, 0)], [("e1", true)]⟩

/-- The store after additionally ingesting the duplicate `c3r2`: user 2
gets registered, but no count changes. -/
def c3s2 : Datastore :=
  ⟨[⟨1, [], [("open", 1)], 10⟩, ⟨2, [], [], 5⟩], [(2, 1), (1, 0)], [("e1", true)]⟩

/-- **C3, witness**: the duplicate record id e1, re-delivered for a
different user, changes no event count. -/
theorem c3_event_idempotence_witness :
    eventCount c3s2 1 "open" = eventCount c3s1 1 "open" ∧
    eventCount c3s2 2 "open" = eventCount c3s1 2 "open" :=
  ⟨@c3_event_idempotence emptyStore c3s1 c3s2 c3r1 c3r2 rfl rfl rfl (Or.inl rfl)
      (by decide) (by decide) 1 "open",
   @c3_event_idempotence emptyStore c3s1 c3s2 c3r1 c3r2 rfl rfl rfl (Or.inl rfl)
      (by decide) (by decide) 2 "open"⟩

/-! ### Claim C6 -/

/-- A single-position overwrite that does not lower that position's
watermark lowers no customer's watermark. -/
theorem mono_of_set {t : Datastore} {q p : Nat} {c c0 c' cNew : Customer}
    (hcreg : t.customers[p]? = some c)
    (hcq : t.customers[q]? = some c0)
    (hLU : c0.LastUpdated ≤ cNew.LastUpdated)
    (hc' : (t.customers.set q cNew)[p]? = some c') :
    c.LastUpdated ≤ c'.LastUpdated := by
  by_cases hpq : p = q
  · subst hpq
    rw [List.getElem?_set_self (lt_of_getElem?_some hcq)] at hc'
    rw [hcreg] at hcq
    rw [← Option.some.inj hc', Option.some.inj hcq]
    exact hLU
  · rw [List.getElem?_set_ne (fun hh => hpq hh.symm), hcreg] at hc'
    exact le_of_eq (congrArg Customer.LastUpdated (Option.some.inj hc'))

/-- Ingesting any record never lowers the watermark of any stored
customer (duplicates change nothing, events and attributes only raise). -/
theorem ingest_LU_mono {ds ds' : Datastore} {r : Record} {p : Nat} {c c' : Customer}
    (h : ingestStep ds r = .ok ds') (hc : ds.customers[p]? = some c)
    (hc' : ds'.customers[p]? = some c') : c.LastUpdated ≤ c'.LastUpdated := by
  cases hp : atoi r.UserID with
  | none =>
    rw [ingestStep_unparseable hp] at h
    have h' := Except.ok.inj h
    subst h'
    rw [hc] at hc'
    exact le_of_eq (congrArg Customer.LastUpdated (Option.some.inj hc'))
  | some uid =>
    rw [ingestStep_eq_processRecord hp] at h
    have hcreg : (regStep ds r uid).customers[p]? = some c := by
      unfold regStep
      split
      · exact hc
      · dsimp only
        rw [List.getElem?_append_left (lt_of_getElem?_some hc)]
        exact hc
    cases hcq : (regStep ds r uid).customers[(alookup uid (regStep ds r uid).customerLinks).getD 0]? with
    | none =>
      rw [processRecord_oob hp rfl hcq] at h
      cases h
    | some c0 =>
      by_cases hk : r.Kind = "event"
      · cases hdup : alookup r.ID (regStep ds r uid).processedEventsMap with
        | some b =>
          rw [processRecord_dup_event hp rfl hcq hk (by rw [hdup]; rfl)] at h
          have h' := Except.ok.inj h
          subst h'
          rw [hcreg] at hc'
          exact le_of_eq (congrArg Customer.LastUpdated (Option.some.inj hc'))
        | none =>
          rw [processRecord_event hp rfl hcq hk hdup] at h
          have h' := (Except.ok.inj h).symm
          subst h'
          dsimp only at hc'
          exact mono_of_set hcreg hcq
            (raiseLU_le { c0 with Events := bumpEvent c0.Events r.Name } r.Timestamp) hc'
      · by_cases hk2 : r.Kind = "attributes"
        · rw [processRecord_attrs hp rfl hcq hk2] at h
          have h' := (Except.ok.inj h).symm
          subst h'
          dsimp only at hc'
          refine mono_of_set hcreg hcq ?_ hc'
          have hbase : (if c0.LastUpdated ≤ r.Timestamp then
              { c0 with Attributes := applyData c0.Attributes r.Data }
            else c0).LastUpdated = c0.LastUpdated := by
            split <;> rfl
          calc c0.LastUpdated
              = _ := hbase.symm
            _ ≤ _ := raiseLU_le ..
        · rw [processRecord_other hp rfl hcq hk hk2] at h
          have h' := (Except.ok.inj h).symm
          subst h'
          dsimp only at hc'
          exact mono_of_set hcreg hcq (raiseLU_le ..) hc'

/-- `Update` sets the watermark to the supplied wall-clock reading; it
never lowers any customer's watermark exactly when that reading is at or
above the updated customer's current watermark. -/
theorem update_LU_mono {ds : Datastore} {id : Int} {attrs : List (String × String)}
    {now : Int} {cu : Customer} {ds' : Datastore}
    (h : ds.Update id attrs now = .ok (cu, ds')) {q : Nat} {d d' : Customer}
    (hd : ds.customers[q]? = some d) (hnow : d.LastUpdated ≤ now)
    (hd' : ds'.customers[q]? = some d') : d.LastUpdated ≤ d'.LastUpdated := by
  unfold Datastore.Update at h
  cases hlk : alookup id ds.customerLinks with
  | none =>
    rw [hlk] at h
    cases h
  | some pos =>
    rw [hlk] at h
    dsimp only at h
    cases hcp : ds.customers[pos]? with
    | none =>
      rw [hcp] at h
      cases h
    | some c0 =>
      rw [hcp] at h
      dsimp only at h
      have hpair := Except.ok.inj h
      have hds' : ds' = Datastore.mk
          (ds.customers.set pos ⟨c0.ID, applyData c0.Attributes attrs, c0.Events, now⟩)
          ds.customerLinks ds.processedEventsMap :=
        (congrArg Prod.snd hpair).symm
      subst hds'
      dsimp only at hd'
      by_cases hq : q = pos
      · subst hq
        rw [List.getElem?_set_self (lt_of_getElem?_some hcp)] at hd'
        rw [← Option.some.inj hd']
        exact hnow
      · rw [List.getElem?_set_ne (fun hh => hq hh.symm), hd] at hd'
        exact le_of_eq (congrArg Customer.LastUpdated (Option.some.inj hd'))

/-- **C6, counterexample**: ingesting an event carrying timestamp 100
leaves customer 1 with lastUpdated 100; a subsequent `Update` whose
wall-clock reading is 50 sets lastUpdated to 50 — the watermark
*decreases*, so the claim that it never decreases across every operation
including Update is false. -/
theorem c6_watermark_monotonic_cex :
    New [⟨"e1", "1", "event", "open", 100, []⟩] =
      .ok ⟨[⟨1, [], [("open", 1)], 100⟩], [(1, 0)], [("e1", true)]⟩ ∧
    (Datastore.mk [⟨1, [], [("open", 1)], 100⟩] [(1, 0)] [("e1", true)]).Update 1 [] 50 =
      .ok (⟨1, [], [("open", 1)], 50⟩,
           ⟨[⟨1, [], [("open", 1)], 50⟩], [(1, 0)], [("e1", true)]⟩) := by
  decide

/-- **C6 (amended)**: ingestion never lowers any customer's lastUpdated
(event or attributes, duplicate or not), and `Update` — which sets
lastUpdated to the supplied wall-clock reading — never lowers it provided
that reading is at or above the customer's current watermark; when the
wall clock is behind the watermark (e.g. after ingesting future-stamped
records) Update lowers it, as the counterexample shows. -/
theorem c6_watermark_monotonic_amended :
    (∀ (ds ds' : Datastore) (r : Record) (p : Nat) (c c' : Customer),
        ingestStep ds r = .ok ds' → ds.customers[p]? = some c →
        ds'.customers[p]? = some c' → c.LastUpdated ≤ c'.LastUpdated) ∧
    (∀ (ds : Datastore) (id : Int) (attrs : List (String × String)) (now : Int)
        (cu : Customer) (ds' : Datastore) (q : Nat) (d d' : Customer),
        ds.Update id attrs now = .ok (cu, ds') →
        ds.customers[q]? = some d → d.LastUpdated ≤ now →
        ds'.customers[q]? = some d' → d.LastUpdated ≤ d'.LastUpdated) :=
  ⟨fun _ _ _ _ _ _ h hc hc' => ingest_LU_mono h hc hc',
   fun _ _ _ _ _ _ _ _ _ h hd hnow hd' => update_LU_mono h hd hnow hd'⟩

/-- **C6, witness**: both amended branches at concrete inputs — an
attributes record raising the watermark from 10 to 20, and an Update with
wall clock 30 raising it from 10 to 30. -/
theorem c6_watermark_monotonic_amended_witness :
    (Customer.mk 1 [] [] 10).LastUpdated ≤
      (Customer.mk 1 [("a", "b")] [] 20).LastUpdated ∧
    (Customer.mk 1 [] [] 10).LastUpdated ≤
      (Customer.mk 1 [("a", "b")] [] 30).LastUpdated :=
  ⟨c6_watermark_monotonic_amended.1
      ⟨[⟨1, [], [], 10⟩], [(1, 0)], []⟩
      ⟨[⟨1, [("a", "b")], [], 20⟩], [(1, 0)], []⟩
      ⟨"a1", "1", "attributes", "", 20, [("a", "b")]⟩ 0 ⟨1, [], [], 10⟩
      ⟨1, [("a", "b")], [], 20⟩ (by decide) (by decide) (by decide),
   c6_watermark_monotonic_amended.2
      ⟨[⟨1, [], [], 10⟩], [(1, 0)], []⟩ 1 [("a", "b")] 30
      ⟨1, [("a", "b")], [], 30⟩ ⟨[⟨1, [("a", "b")], [], 30⟩], [(1, 0)], []⟩
      0 ⟨1, [], [], 10⟩ ⟨1, [("a", "b")], [], 30⟩
      (by decide) (by decide) (by decide) (by decide)⟩

/-! ### Claim C4 -/

/-- The value the customer linked to `uid` currently holds for attribute
key `k`. -/
def attrAt (s : Datastore) (uid : Int) (k : String) : Option String :=
  match alookup uid s.customerLinks with
  | none => none
  | some p =>
    match s.customers[p]? with
    | none => none
    | some c => alookup k c.Attributes

theorem regStep_of_present {ds : Datastore} {r : Record} {uid : Int}
    (h : (alookup uid ds.customerLinks).isSome = true) : regStep ds r uid = ds := by
  unfold regStep
  rw [if_pos h]

theorem regStep_mk_present {cs : List Customer} {links : List (Int × Nat)}
    {proc : List (String × Bool)} {r : Record} {uid : Int}
    (h : (alookup uid links).isSome = true) :
    regStep (Datastore.mk cs links proc) r uid = Datastore.mk cs links proc :=
  regStep_of_present h

/-- `processRecord_attrs` specialized to a store given by its three
fields, so that unification picks the right store. -/
theorem processRecord_attrs_mk {cs : List Customer} {links : List (Int × Nat)}
    {proc : List (String × Bool)} {r : Record} {uid : Int} {q : Nat} {c : Customer}
    (hp : atoi r.UserID = some uid)
    (hq : (alookup uid links).getD 0 = q)
    (hcq : cs[q]? = some c) (hk : r.Kind = "attributes") :
    processRecord (Datastore.mk cs links proc) r =
      .ok ⟨cs.set q
             (raiseLU
               (if c.LastUpdated ≤ r.Timestamp then
                 { c with Attributes := applyData c.Attributes r.Data }
               else c) r.Timestamp),
           links, proc⟩ :=
  processRecord_attrs hp hq hcq hk

/-- **C4**: attribute last-writer-wins order-insensitivity.  For a
customer whose watermark is at most `t1` and two attributes records for
it with timestamps `t1 < t2` both setting key `k`, applying them in
timestamp order leaves `k` at the `t2` value; applying them in reverse
arrival order also leaves `k` at the `t2` value — the second (stale)
record is dropped silently: that step succeeds and changes nothing. -/
theorem c4_attribute_lww {s : Datastore} {uid : Int} {pos : Nat} {c : Customer}
    {r1 r2 : Record} {t1 t2 : Int} {k v2 : String}
    (hlk : alookup uid s.customerLinks = some pos)
    (hc : s.customers[pos]? = some c)
    (hlu : c.LastUpdated ≤ t1)
    (hp1 : atoi r1.UserID = some uid) (hp2 : atoi r2.UserID = some uid)
    (hk1 : r1.Kind = "attributes") (hk2 : r2.Kind = "attributes")
    (ht1 : r1.Timestamp = t1) (ht2 : r2.Timestamp = t2) (hlt : t1 < t2)
    (hd1 : (alookup k r1.Data).isSome = true)
    (hd2 : alookup k r2.Data = some v2)
    (hnd2 : (r2.Data.map Prod.fst).Nodup) :
    (∃ s1 s2, ingestStep s r1 = .ok s1 ∧ ingestStep s1 r2 = .ok s2 ∧
        attrAt s2 uid k = some v2) ∧
    (∃ s2', ingestStep s r2 = .ok s2' ∧ ingestStep s2' r1 = .ok s2' ∧
        attrAt s2' uid k = some v2) := by
  have hposlen : pos < s.customers.length := lt_of_getElem?_some hc
  have hex : (alookup uid s.customerLinks).isSome = true := by
    rw [hlk]
    rfl
  have hq : (alookup uid s.customerLinks).getD 0 = pos := by
    rw [hlk]
    rfl
  constructor
  · -- timestamp order: r1 then r2
    have e1 : ingestStep s r1 =
        .ok (Datastore.mk
          (s.customers.set pos
            (raiseLU ⟨c.ID, applyData c.Attributes r1.Data, c.Events, c.LastUpdated⟩
              r1.Timestamp))
          s.customerLinks s.processedEventsMap) := by
      rw [ingestStep_eq_processRecord hp1, regStep_of_present hex,
        processRecord_attrs hp1 hq hc hk1,
        if_pos (show c.LastUpdated ≤ r1.Timestamp by rw [ht1]; exact hlu)]
    have hc1LU : (raiseLU ⟨c.ID, applyData c.Attributes r1.Data, c.Events, c.LastUpdated⟩
        r1.Timestamp).LastUpdated = t1 := by
      rw [raiseLU_of_le (show (Customer.mk c.ID (applyData c.Attributes r1.Data) c.Events
          c.LastUpdated).LastUpdated ≤ r1.Timestamp by rw [ht1]; exact hlu), ht1]
    have hc1' : (s.customers.set pos
        (raiseLU ⟨c.ID, applyData c.Attributes r1.Data, c.Events, c.LastUpdated⟩
          r1.Timestamp))[pos]? =
        some (raiseLU ⟨c.ID, applyData c.Attributes r1.Data, c.Events, c.LastUpdated⟩
          r1.Timestamp) :=
      List.getElem?_set_self hposlen
    have e2 : ingestStep (Datastore.mk
        (s.customers.set pos
          (raiseLU ⟨c.ID, applyData c.Attributes r1.Data, c.Events, c.LastUpdated⟩
            r1.Timestamp))
        s.customerLinks s.processedEventsMap) r2 =
        .ok (Datastore.mk
          ((s.customers.set pos
            (raiseLU ⟨c.ID, applyData c.Attributes r1.Data, c.Events, c.LastUpdated⟩
              r1.Timestamp)).set pos
            (raiseLU
              ⟨(raiseLU ⟨c.ID, applyData c.Attributes r1.Data, c.Events, c.LastUpdated⟩
                  r1.Timestamp).ID,
               applyData (raiseLU ⟨c.ID, applyData c.Attributes r1.Data, c.Events,
                  c.LastUpdated⟩ r1.Timestamp).Attributes r2.Data,
               (raiseLU ⟨c.ID, applyData c.Attributes r1.Data, c.Events, c.LastUpdated⟩
                  r1.Timestamp).Events,
               (raiseLU ⟨c.ID, applyData c.Attributes r1.Data, c.Events, c.LastUpdated⟩
                  r1.Timestamp).LastUpdated⟩
              r2.Timestamp))
          s.customerLinks s.processedEventsMap) := by
      rw [ingestStep_eq_processRecord hp2, regStep_mk_present hex,
        processRecord_attrs_mk hp2 hq hc1' hk2,
        if_pos (show (raiseLU ⟨c.ID, applyData c.Attributes r1.Data, c.Events,
            c.LastUpdated⟩ r1.Timestamp).LastUpdated ≤ r2.Timestamp by
          rw [hc1LU, ht2]; omega)]
    refine ⟨_, _, e1, e2, ?_⟩
    unfold attrAt
    dsimp only
    rw [hlk]
    dsimp only
    rw [List.getElem?_set_self (by rw [List.length_set]; exact hposlen)]
    dsimp only
    rw [raiseLU_attrs]
    exact alookup_applyData_some hnd2 hd2 _
  · -- reverse arrival order: r2 then r1, the r1 step is a silent no-op
    have eA : ingestStep s r2 =
        .ok (Datastore.mk
          (s.customers.set pos
            (raiseLU ⟨c.ID, applyData c.Attributes r2.Data, c.Events, c.LastUpdated⟩
              r2.Timestamp))
          s.customerLinks s.processedEventsMap) := by
      rw [ingestStep_eq_processRecord hp2, regStep_of_present hex,
        processRecord_attrs hp2 hq hc hk2,
        if_pos (show c.LastUpdated ≤ r2.Timestamp by rw [ht2]; omega)]
    have hcBLU : (raiseLU ⟨c.ID, applyData c.Attributes r2.Data, c.Events, c.LastUpdated⟩
        r2.Timestamp).LastUpdated = t2 := by
      rw [raiseLU_of_le (show (Customer.mk c.ID (applyData c.Attributes r2.Data) c.Events
          c.LastUpdated).LastUpdated ≤ r2.Timestamp by
        rw [ht2]; show c.LastUpdated ≤ t2; omega), ht2]
    have hcB' : (s.customers.set pos
        (raiseLU ⟨c.ID, applyData c.Attributes r2.Data, c.Events, c.LastUpdated⟩
          r2.Timestamp))[pos]? =
        some (raiseLU ⟨c.ID, applyData c.Attributes r2.Data, c.Events, c.LastUpdated⟩
          r2.Timestamp) :=
      List.getElem?_set_self hposlen
    have eB : ingestStep (Datastore.mk
        (s.customers.set pos
          (raiseLU ⟨c.ID, applyData c.Attributes r2.Data, c.Events, c.LastUpdated⟩
            r2.Timestamp))
        s.customerLinks s.processedEventsMap) r1 =
        .ok (Datastore.mk
          (s.customers.set pos
            (raiseLU ⟨c.ID, applyData c.Attributes r2.Data, c.Events, c.LastUpdated⟩
              r2.Timestamp))
          s.customerLinks s.processedEventsMap) := by
      rw [ingestStep_eq_processRecord hp1, regStep_mk_present hex,
        processRecord_attrs_mk hp1 hq hcB' hk1,
        if_neg (show ¬ (raiseLU ⟨c.ID, applyData c.Attributes r2.Data, c.Events,
            c.LastUpdated⟩ r2.Timestamp).LastUpdated ≤ r1.Timestamp by
          rw [hcBLU, ht1]; omega),
        raiseLU_noop (show r1.Timestamp ≤ (raiseLU ⟨c.ID, applyData c.Attributes r2.Data,
            c.Events, c.LastUpdated⟩ r2.Timestamp).LastUpdated by
          rw [hcBLU, ht1]; omega),
        set_self hcB']
    refine ⟨_, eA, eB, ?_⟩
    unfold attrAt
    dsimp only
    rw [hlk]
    dsimp only
    rw [List.getElem?_set_self hposlen]
    dsimp only
    rw [raiseLU_attrs]
    exact alookup_applyData_some hnd2 hd2 _

/-- **C4, witness**: attributes {color: red} at timestamp 5 and
{color: blue} at timestamp 20 for customer 1 (watermark 0), in both
arrival orders, leave color = blue. -/
theorem c4_attribute_lww_witness :
    (∃ s1 s2,
        ingestStep ⟨[⟨1, [], [], 0⟩], [(1, 0)], []⟩
            ⟨"a1", "1", "attributes", "", 5, [("color", "red")]⟩ = .ok s1 ∧
        ingestStep s1 ⟨"a2", "1", "attributes", "", 20, [("color", "blue")]⟩ = .ok s2 ∧
        attrAt s2 1 "color" = some "blue") ∧
    (∃ s2',
        ingestStep ⟨[⟨1, [], [], 0⟩], [(1, 0)], []⟩
            ⟨"a2", "1", "attributes", "", 20, [("color", "blue")]⟩ = .ok s2' ∧
        ingestStep s2' ⟨"a1", "1", "attributes", "", 5, [("color", "red")]⟩ = .ok s2' ∧
        attrAt s2' 1 "color" = some "blue") :=
  @c4_attribute_lww ⟨[⟨1, [], [], 0⟩], [(1, 0)], []⟩ 1 0 ⟨1, [], [], 0⟩
    ⟨"a1", "1", "attributes", "", 5, [("color", "red")]⟩
    ⟨"a2", "1", "attributes", "", 20, [("color", "blue")]⟩ 5 20 "color" "blue"
    rfl rfl (by decide) rfl rfl rfl rfl rfl rfl (by decide) rfl rfl (by decide)

/-! ### Claim C5 -/

/-- **C5**: watermark asymmetry between record kinds.  For a customer
with watermark `t1`, a fresh event with timestamp `t3 > t1` raises the
watermark to `t3` (without touching attributes), and a subsequent
attributes record with timestamp `t2`, `t1 < t2 < t3`, is dropped by the
attribute-ordering check against the already-raised watermark: that step
succeeds and leaves the state exactly as it was. -/
theorem c5_watermark_asymmetry {s : Datastore} {uid : Int} {pos : Nat} {c : Customer}
    {re ra : Record} {t1 t2 t3 : Int}
    (hlk : alookup uid s.customerLinks = some pos)
    (hc : s.customers[pos]? = some c)
    (hlu : c.LastUpdated = t1)
    (hpe : atoi re.UserID = some uid) (hpa : atoi ra.UserID = some uid)
    (hke : re.Kind = "event") (hka : ra.Kind = "attributes")
    (hte : re.Timestamp = t3) (hta : ra.Timestamp = t2)
    (h12 : t1 < t2) (h23 : t2 < t3)
    (hfresh : alookup re.ID s.processedEventsMap = none) :
    ∃ s1 c1, ingestStep s re = .ok s1 ∧
      s1.customers[pos]? = some c1 ∧ c1.LastUpdated = t3 ∧
      c1.Attributes = c.Attributes ∧
      ingestStep s1 ra = .ok s1 := by
  have hposlen : pos < s.customers.length := lt_of_getElem?_some hc
  have hex : (alookup uid s.customerLinks).isSome = true := by
    rw [hlk]
    rfl
  have hq : (alookup uid s.customerLinks).getD 0 = pos := by
    rw [hlk]
    rfl
  have e1 : ingestStep s re =
      .ok ⟨s.customers.set pos
             (raiseLU { c with Events := bumpEvent c.Events re.Name } re.Timestamp),
           s.customerLinks, ainsert re.ID true s.processedEventsMap⟩ := by
    rw [ingestStep_eq_processRecord hpe, regStep_of_present hex,
      processRecord_event hpe hq hc hke hfresh]
  have hc1LU : (raiseLU { c with Events := bumpEvent c.Events re.Name }
      re.Timestamp).LastUpdated = t3 := by
    rw [raiseLU_of_le (show (Customer.mk c.ID c.Attributes (bumpEvent c.Events re.Name)
        c.LastUpdated).LastUpdated ≤ re.Timestamp by
      rw [hte]; show c.LastUpdated ≤ t3; omega), hte]
  have hc1A : (raiseLU { c with Events := bumpEvent c.Events re.Name }
      re.Timestamp).Attributes = c.Attributes := by
    rw [raiseLU_attrs]
  have hc1' : (s.customers.set pos
      (raiseLU { c with Events := bumpEvent c.Events re.Name } re.Timestamp))[pos]? =
      some (raiseLU { c with Events := bumpEvent c.Events re.Name } re.Timestamp) :=
    List.getElem?_set_self hposlen
  have e2 : ingestStep (Datastore.mk
      (s.customers.set pos
        (raiseLU { c with Events := bumpEvent c.Events re.Name } re.Timestamp))
      s.customerLinks (ainsert re.ID true s.processedEventsMap)) ra =
      .ok (Datastore.mk
        (s.customers.set pos
          (raiseLU { c with Events := bumpEvent c.Events re.Name } re.Timestamp))
        s.customerLinks (ainsert re.ID true s.processedEventsMap)) := by
    rw [ingestStep_eq_processRecord hpa, regStep_mk_present hex,
      processRecord_attrs_mk hpa hq hc1' hka,
      if_neg (show ¬ (raiseLU { c with Events := bumpEvent c.Events re.Name }
          re.Timestamp).LastUpdated ≤ ra.Timestamp by rw [hc1LU, hta]; omega),
      raiseLU_noop (show
        ra.Timestamp ≤
          (raiseLU { c with Events := bumpEvent c.Events re.Name } re.Timestamp).LastUpdated
        by rw [hc1LU, hta]; omega),
      set_self hc1']
  exact ⟨_, _, e1, hc1', hc1LU, hc1A, e2⟩

/-- **C5, witness**: customer 1 at watermark 5; event at timestamp 30
raises the watermark to 30; attributes at timestamp 10 (between 5 and 30)
are dropped and the state is unchanged. -/
theorem c5_watermark_asymmetry_witness :
    ∃ s1 c1,
      ingestStep ⟨[⟨1, [], [], 5⟩], [(1, 0)], []⟩
          ⟨"e9", "1", "event", "open", 30, []⟩ = .ok s1 ∧
      s1.customers[0]? = some c1 ∧ c1.LastUpdated = 30 ∧
      c1.Attributes = (Customer.mk 1 [] [] 5).Attributes ∧
      ingestStep s1 ⟨"a9", "1", "attributes", "", 10, [("x", "y")]⟩ = .ok s1 :=
  @c5_watermark_asymmetry ⟨[⟨1, [], [], 5⟩], [(1, 0)], []⟩ 1 0 ⟨1, [], [], 5⟩
    ⟨"e9", "1", "event", "open", 30, []⟩ ⟨"a9", "1", "attributes", "", 10, [("x", "y")]⟩
    5 10 30 rfl rfl rfl rfl rfl rfl rfl rfl rfl (by decide) (by decide) rfl
